import Mathlib

/-!
Shallow embedding of `src/plugins/inventory/inventory.py` (the
`silexdata.mysql` Ansible inventory plugin) and proofs about it.

The plugin fetches rows from a MySQL database (`_get_raw_hosts`),
optionally caches them (`parse`), and populates an externally owned
inventory accumulator (`_populate` / `_add_host`).

Python values that can appear in a row, Python truthiness, dict-like
rows, and the externally visible side effects (connection open/close,
query execution, cache reads/writes, inventory mutations, warnings)
are modelled explicitly; the database and the Ansible composition
helpers (`_set_composite_vars`, `_add_host_to_composed_groups`,
`_add_host_to_keyed_groups`) are external collaborators and enter as
oracle parameters.
-/

namespace MysqlInventory

/-- A scalar value as delivered by the database driver / cache:
a string, an integer, or SQL NULL (Python `None`). -/
inductive Value
  | str (s : String)
  | num (n : Int)
  | null
  deriving DecidableEq, Repr

/-- Python truthiness of a `Value` (`if hostname:` in `_populate`):
empty string, zero and `None` are falsy. -/
def Value.truthy : Value → Bool
  | .str s => !s.isEmpty
  | .num n => n != 0
  | .null => false

/-- A row as returned by `pymysql.cursors.DictCursor`: a mapping from
column name to value.  Modelled as an association list; Python dicts
have unique keys and lookup takes the first match. -/
abbrev Row := List (String × Value)

/-- `row.get(k)` on a Python dict: the value under `k`, or `None`
(here: `none`) when the key is absent. -/
def rowGet (row : Row) (k : String) : Option Value :=
  (row.find? (fun p => p.1 == k)).map (·.2)

/-- An element of the raw host set handed to `_populate`.  A live fetch
always yields dicts, but cached data is arbitrary, so a row may also be
a non-mapping object, on which `row.get` raises (an `AttributeError`
whose text we carry as `desc`). -/
inductive RawRow
  | dict (r : Row)
  | other (desc : String)
  deriving DecidableEq, Repr

/-- The value `self.get_option("db_query")` evaluates to: a string, or
some non-string object (whose Python repr we carry as `desc`). -/
inductive QueryOpt
  | str (s : String)
  | notStr (desc : String)
  deriving DecidableEq, Repr

/-- Externally visible events of the fetch / orchestration layer:
the call into `_get_raw_hosts`, connection open, query execution,
connection close, cache lookup and cache write. -/
inductive FetchEv
  | fetchCall
  | connect
  | execute
  | close
  | cacheLookup (key : String)
  | cacheWrite (key : String)
  deriving DecidableEq, Repr

/-- Outcome of the external database for one fetch: `pymysql.connect`
raises, `cursor.execute` raises, or the query succeeds with rows. -/
inductive DBOutcome
  | connectFail (msg : String)
  | execFail (msg : String)
  | rows (rs : List RawRow)
  deriving DecidableEq, Repr

/-- Python `str.strip()` on the character sequence of a string: drop
whitespace from both ends. -/
def pyStrip (l : List Char) : List Char :=
  ((l.dropWhile Char.isWhitespace).reverse.dropWhile Char.isWhitespace).reverse

/-- Python `str.upper()` on the character sequence of a string
(ASCII uppercasing, which is what matters for `"SELECT"`). -/
def pyUpper (l : List Char) : List Char := l.map Char.toUpper

/-- `query.strip()` is empty — the `not query.strip()` test. -/
def queryBlank (s : String) : Bool := (pyStrip s.data).isEmpty

/-- `query.strip().upper().startswith("SELECT")`. -/
def queryIsSelect (s : String) : Bool :=
  "SELECT".data.isPrefixOf (pyUpper (pyStrip s.data))

/-- `InventoryModule._get_raw_hosts` (inventory.py lines 155-196).

Validates the query option, then connects, executes and fetches,
wrapping any connection/execution exception as
`"Database query failed: ..."`; the `finally` block closes the
connection whenever one was assigned.  Returns the Python result
(rows or raised error message) together with the list of external
events in order. -/
def getRawHosts (q : QueryOpt) (db : DBOutcome) :
    Except String (List RawRow) × List FetchEv :=
  match q with
  | .notStr _ => (.error "Query must be a non-empty string", [.fetchCall])
  | .str s =>
    if queryBlank s then
      (.error "Query must be a non-empty string", [.fetchCall])
    else if !(queryIsSelect s) then
      (.error "Database query must be a valid SELECT statement", [.fetchCall])
    else
      match db with
      | .connectFail m =>
        -- `pymysql.connect` raised before `connection` was assigned:
        -- the `finally` block sees `connection is None` and does not close.
        (.error ("Database query failed: " ++ m), [.fetchCall])
      | .execFail m =>
        (.error ("Database query failed: " ++ m),
          [.fetchCall, .connect, .execute, .close])
      | .rows rs =>
        (.ok rs, [.fetchCall, .connect, .execute, .close])

/-- The validation condition of the claimed `ConfigurationError` branch:
the query option is not a string, is empty/whitespace-only, or its
trimmed text does not begin with `SELECT` case-insensitively. -/
def invalidQuery : QueryOpt → Bool
  | .notStr _ => true
  | .str s => queryBlank s || !(queryIsSelect s)

/-- The two validation messages the spec groups as `ConfigurationError`,
as opposed to the `DatabaseError` wrap `"Database query failed: ..."`. -/
def isConfigErrorMsg (m : String) : Bool :=
  m == "Query must be a non-empty string" ||
  m == "Database query must be a valid SELECT statement"

/-- The externally owned inventory accumulator (Ansible's
`InventoryData`), restricted to the interface the plugin consumes.

Modelled from the spec: the accumulator lives outside this repository;
§6 gives the consumed API `add_host(name, group)` /
`set_variable(host, name, value)` and §4.3 its contract — registering
an already-known host under the same group is a no-op, and setting a
variable overwrites any prior value of that name on that host.

`hosts` is the membership list of group `"all"` in order of first
addition; `hostVars` is the variable store, most recent assignment
first, looked up by first match. -/
structure Inventory where
  hosts : List Value
  hostVars : List (Value × String × Value)
  deriving DecidableEq, Repr

/-- The empty inventory accumulator. -/
def Inventory.empty : Inventory := ⟨[], []⟩

/-- `inventory.add_host(hostname, group="all")`: a no-op when the host
is already registered, otherwise appends it to group `"all"`. -/
def Inventory.addHost (inv : Inventory) (h : Value) : Inventory :=
  if h ∈ inv.hosts then inv else { inv with hosts := inv.hosts ++ [h] }

/-- `inventory.set_variable(hostname, k, v)`: records the assignment;
lookup takes the most recent one, so this overwrites. -/
def Inventory.setVariable (inv : Inventory) (h : Value) (k : String) (v : Value) :
    Inventory :=
  { inv with hostVars := (h, k, v) :: inv.hostVars }

/-- Current value of variable `k` on host `h`. -/
def Inventory.getVariable (inv : Inventory) (h : Value) (k : String) : Option Value :=
  (inv.hostVars.find? (fun t => t.1 == h && t.2.1 == k)).map (·.2.2)

/-- Inventory-layer events of `_add_host` / `_populate`, in order:
host registration, variable assignment, the three composition-helper
calls, and the skip warning for a row without a usable hostname. -/
inductive Op
  | addHost (h : Value)
  | setVar (h : Value) (k : String) (v : Value)
  | composeCall (h : Value)
  | groupsCall (h : Value)
  | keyedCall (h : Value)
  | warnSkip
  deriving DecidableEq, Repr

/-- Outcomes of the three external Ansible composition helpers for one
host: `_set_composite_vars`, `_add_host_to_composed_groups`,
`_add_host_to_keyed_groups`.  Each either returns (`ok`) or raises an
exception with the given message (which in practice happens only under
`strict`); their group/derived-variable effects live outside the
modelled state. -/
structure CompEnv where
  composeRes : Bool → Value → Row → Except String Unit
  groupsRes : Bool → Value → Row → Except String Unit
  keyedRes : Bool → Value → Row → Except String Unit

/-- A composition environment in which no helper ever raises. -/
def CompEnv.ok : CompEnv :=
  ⟨fun _ _ _ => .ok (), fun _ _ _ => .ok (), fun _ _ _ => .ok ()⟩

/-- `InventoryModule._add_host` (inventory.py lines 214-232).

Registers the host into group `"all"`, sets one host variable per row
field in row order, then invokes the compose, composed-groups and
keyed-groups helpers in that order.  Returns the updated inventory,
the event trace, and the message of the first helper exception, if
any (an exception aborts the remaining steps, as in Python). -/
def addHostRun (env : CompEnv) (strict : Bool) (inv : Inventory)
    (hostname : Value) (row : Row) : Inventory × List Op × Option String :=
  let inv1 := inv.addHost hostname
  let inv2 := row.foldl (fun acc p => acc.setVariable hostname p.1 p.2) inv1
  let ops0 : List Op :=
    Op.addHost hostname :: row.map (fun p => Op.setVar hostname p.1 p.2)
  match env.composeRes strict hostname row with
  | .error e => (inv2, ops0 ++ [.composeCall hostname], some e)
  | .ok _ =>
    match env.groupsRes strict hostname row with
    | .error e => (inv2, ops0 ++ [.composeCall hostname, .groupsCall hostname], some e)
    | .ok _ =>
      match env.keyedRes strict hostname row with
      | .error e =>
        (inv2, ops0 ++ [.composeCall hostname, .groupsCall hostname, .keyedCall hostname],
          some e)
      | .ok _ =>
        (inv2, ops0 ++ [.composeCall hostname, .groupsCall hostname, .keyedCall hostname],
          none)

/-- The body of `_populate`'s `try` block for one row (inventory.py
lines 202-208): `row.get` (raising on a non-dict row), the truthiness
test on the hostname with the skip warning, and `_add_host`.  The
returned error message is the raw exception text, before the
`except` wrap. -/
def processRow (env : CompEnv) (strict : Bool) (hf : String) (inv : Inventory) :
    RawRow → Inventory × List Op × Option String
  | .other desc => (inv, [], some desc)
  | .dict row =>
    match rowGet row hf with
    | some v =>
      if v.truthy then addHostRun env strict inv v row
      else (inv, [.warnSkip], none)
    | none => (inv, [.warnSkip], none)

/-- `InventoryModule._populate` (inventory.py lines 198-212).

Processes the rows in sequence order; any exception from a row is
wrapped as `"Failure parsing record: " ++ cause` and raised, aborting
the remaining rows; a missing/falsy hostname only warns and
continues. -/
def populate (env : CompEnv) (strict : Bool) (hf : String) :
    Inventory → List RawRow → Inventory × List Op × Option String
  | inv, [] => (inv, [], none)
  | inv, r :: rs =>
    let p := processRow env strict hf inv r
    match p.2.2 with
    | some e => (p.1, p.2.1, some ("Failure parsing record: " ++ e))
    | none =>
      let q := populate env strict hf p.1 rs
      (q.1, p.2.1 ++ q.2.1, q.2.2)

/-- The cache exposed to the plugin as `self._cache`: a key/value
store with dict semantics (assignment overwrites; lookup of an absent
key is a miss). -/
abbrev Cache := List (String × List RawRow)

/-- `self._cache[key]` lookup; `none` is the `KeyError` miss. -/
def cacheGet (c : Cache) (k : String) : Option (List RawRow) :=
  (c.find? (fun p => p.1 == k)).map (·.2)

/-- `self._cache[key] = rows`: most recent assignment wins. -/
def cacheSet (c : Cache) (k : String) (rows : List RawRow) : Cache :=
  (k, rows) :: c

/-- Result of one `parse` call: the cache afterwards, the inventory
afterwards, the fetch/cache-layer events, the inventory-layer events,
and the raised error message, if any. -/
structure ParseResult where
  cache : Cache
  inv : Inventory
  fetchEvs : List FetchEv
  ops : List Op
  err : Option String
  deriving DecidableEq, Repr

/-- `utilize_cache = user_cache_setting and cache` (inventory.py line
134): the `cache` option from the configuration conjoined with the
caller's `cache` argument. -/
def utilizeCache (userCacheSetting callerCache : Bool) : Bool :=
  userCacheSetting && callerCache

/-- `InventoryModule.parse` (inventory.py lines 125-153), from the
point where the options are read: `utilize_cache` is the conjunction
of the `cache` option and the caller's `cache` argument; on
`utilize_cache` the cache is consulted under `key`; on a miss (or with
caching off) `_get_raw_hosts` runs and, on success with
`utilize_cache`, its rows are written to the cache; finally
`_populate` runs on the obtained rows.  Fetch errors propagate out
before any population. -/
def parse (env : CompEnv) (strict : Bool) (hf : String) (q : QueryOpt)
    (userCacheSetting callerCache : Bool) (key : String) (cache : Cache)
    (db : DBOutcome) (inv : Inventory) : ParseResult :=
  let utilize := utilizeCache userCacheSetting callerCache
  let lookupEvs : List FetchEv := if utilize then [.cacheLookup key] else []
  let cached := if utilize then cacheGet cache key else none
  match cached with
  | some rows =>
    let p := populate env strict hf inv rows
    ⟨cache, p.1, lookupEvs, p.2.1, p.2.2⟩
  | none =>
    match getRawHosts q db with
    | (.error e, evs) => ⟨cache, inv, lookupEvs ++ evs, [], some e⟩
    | (.ok rows, evs) =>
      let cache' := if utilize then cacheSet cache key rows else cache
      let wEvs : List FetchEv := if utilize then [.cacheWrite key] else []
      let p := populate env strict hf inv rows
      ⟨cache', p.1, lookupEvs ++ evs ++ wEvs, p.2.1, p.2.2⟩

/-! ## Helper lemmas -/

/-- The event trace of one `_get_raw_hosts` call is either the bare
call (no connection opened) or call-connect-execute-close. -/
theorem getRawHosts_evs_cases (q : QueryOpt) (db : DBOutcome) :
    (getRawHosts q db).2 = [.fetchCall] ∨
    (getRawHosts q db).2 = [.fetchCall, .connect, .execute, .close] := by
  cases q with
  | notStr d => exact .inl rfl
  | str s =>
    unfold getRawHosts
    by_cases he : queryBlank s
    · simp [he]
    · by_cases hs : queryIsSelect s
      · cases db <;> simp [he, hs]
      · simp [he, hs]

/-- The hosts list after `add_host`: unchanged when already present,
otherwise the host is appended. -/
theorem addHost_hosts (inv : Inventory) (h : Value) :
    (inv.addHost h).hosts = if h ∈ inv.hosts then inv.hosts else inv.hosts ++ [h] := by
  unfold Inventory.addHost
  split <;> rfl

/-- `add_host` never touches the variable store. -/
theorem addHost_hostVars (inv : Inventory) (h : Value) :
    (inv.addHost h).hostVars = inv.hostVars := by
  unfold Inventory.addHost
  split <;> rfl

/-- Folding `set_variable` over the row fields does not change group
membership. -/
theorem foldl_setVariable_hosts (hname : Value) (row : Row) (inv : Inventory) :
    (row.foldl (fun acc p => acc.setVariable hname p.1 p.2) inv).hosts = inv.hosts := by
  induction row generalizing inv with
  | nil => rfl
  | cons p row ih =>
    rw [List.foldl_cons, ih]
    rfl

/-- Folding `set_variable` over the row fields prepends the
assignments, latest first. -/
theorem foldl_setVariable_hostVars (hname : Value) (row : Row) (inv : Inventory) :
    (row.foldl (fun acc p => acc.setVariable hname p.1 p.2) inv).hostVars =
      (row.map (fun p => (hname, p.1, p.2))).reverse ++ inv.hostVars := by
  induction row generalizing inv with
  | nil => simp
  | cons p row ih =>
    rw [List.foldl_cons, ih]
    simp [Inventory.setVariable]

/-- Group membership after `_add_host`: the host is registered in
`"all"`, whether or not a composition helper raised afterwards. -/
theorem addHostRun_hosts (env : CompEnv) (strict : Bool) (inv : Inventory)
    (hname : Value) (row : Row) :
    (addHostRun env strict inv hname row).1.hosts = (inv.addHost hname).hosts := by
  cases hc : env.composeRes strict hname row with
  | error e => simp [addHostRun, hc, foldl_setVariable_hosts]
  | ok u =>
    cases hg : env.groupsRes strict hname row with
    | error e => simp [addHostRun, hc, hg, foldl_setVariable_hosts]
    | ok u2 =>
      cases hk : env.keyedRes strict hname row with
      | error e => simp [addHostRun, hc, hg, hk, foldl_setVariable_hosts]
      | ok u3 => simp [addHostRun, hc, hg, hk, foldl_setVariable_hosts]

/-- Variable store after `_add_host`: one assignment per row field,
prepended onto the existing store, whether or not a composition
helper raised afterwards. -/
theorem addHostRun_hostVars (env : CompEnv) (strict : Bool) (inv : Inventory)
    (hname : Value) (row : Row) :
    (addHostRun env strict inv hname row).1.hostVars =
      (row.map (fun p => (hname, p.1, p.2))).reverse ++ inv.hostVars := by
  have hv := addHost_hostVars inv hname
  cases hc : env.composeRes strict hname row with
  | error e => simp [addHostRun, hc, foldl_setVariable_hostVars, hv]
  | ok u =>
    cases hg : env.groupsRes strict hname row with
    | error e => simp [addHostRun, hc, hg, foldl_setVariable_hostVars, hv]
    | ok u2 =>
      cases hk : env.keyedRes strict hname row with
      | error e => simp [addHostRun, hc, hg, hk, foldl_setVariable_hostVars, hv]
      | ok u3 => simp [addHostRun, hc, hg, hk, foldl_setVariable_hostVars, hv]

/-- When no composition helper raises, the `_add_host` trace is:
register, one assignment per field in row order, then the compose,
composed-groups and keyed-groups calls. -/
theorem addHostRun_ops_ok (env : CompEnv) (strict : Bool) (inv : Inventory)
    (hname : Value) (row : Row)
    (h : (addHostRun env strict inv hname row).2.2 = none) :
    (addHostRun env strict inv hname row).2.1 =
      Op.addHost hname :: (row.map (fun p => Op.setVar hname p.1 p.2) ++
        [.composeCall hname, .groupsCall hname, .keyedCall hname]) := by
  cases hc : env.composeRes strict hname row with
  | error e => simp [addHostRun, hc] at h
  | ok u =>
    cases hg : env.groupsRes strict hname row with
    | error e => simp [addHostRun, hc, hg] at h
    | ok u2 =>
      cases hk : env.keyedRes strict hname row with
      | error e => simp [addHostRun, hc, hg, hk] at h
      | ok u3 => simp [addHostRun, hc, hg, hk]

/-- `_add_host` never emits the skip warning. -/
theorem addHostRun_no_warn (env : CompEnv) (strict : Bool) (inv : Inventory)
    (hname : Value) (row : Row) :
    Op.warnSkip ∉ (addHostRun env strict inv hname row).2.1 := by
  cases hc : env.composeRes strict hname row with
  | error e => simp [addHostRun, hc]
  | ok u =>
    cases hg : env.groupsRes strict hname row with
    | error e => simp [addHostRun, hc, hg]
    | ok u2 =>
      cases hk : env.keyedRes strict hname row with
      | error e => simp [addHostRun, hc, hg, hk]
      | ok u3 => simp [addHostRun, hc, hg, hk]

/-- `_populate` on a leading row that raises (raw message `e`): the
row's partial effects are kept, its trace is kept, and the raised
error is the wrap of `e`. -/
theorem populate_cons_err (env : CompEnv) (strict : Bool) (hf : String)
    (inv : Inventory) (r : RawRow) (rs : List RawRow) (e : String)
    (hp : (processRow env strict hf inv r).2.2 = some e) :
    populate env strict hf inv (r :: rs) =
      ⟨(processRow env strict hf inv r).1, (processRow env strict hf inv r).2.1,
        some ("Failure parsing record: " ++ e)⟩ := by
  simp [populate, hp]

/-- Resulting inventory of `_populate` on a leading row that raises
nothing. -/
theorem populate_cons_ok_fst (env : CompEnv) (strict : Bool) (hf : String)
    (inv : Inventory) (r : RawRow) (rs : List RawRow)
    (hp : (processRow env strict hf inv r).2.2 = none) :
    (populate env strict hf inv (r :: rs)).1 =
      (populate env strict hf (processRow env strict hf inv r).1 rs).1 := by
  simp [populate, hp]

/-- Trace of `_populate` on a leading row that raises nothing. -/
theorem populate_cons_ok_ops (env : CompEnv) (strict : Bool) (hf : String)
    (inv : Inventory) (r : RawRow) (rs : List RawRow)
    (hp : (processRow env strict hf inv r).2.2 = none) :
    (populate env strict hf inv (r :: rs)).2.1 =
      (processRow env strict hf inv r).2.1 ++
        (populate env strict hf (processRow env strict hf inv r).1 rs).2.1 := by
  simp [populate, hp]

/-- Error of `_populate` on a leading row that raises nothing. -/
theorem populate_cons_ok_err (env : CompEnv) (strict : Bool) (hf : String)
    (inv : Inventory) (r : RawRow) (rs : List RawRow)
    (hp : (processRow env strict hf inv r).2.2 = none) :
    (populate env strict hf inv (r :: rs)).2.2 =
      (populate env strict hf (processRow env strict hf inv r).1 rs).2.2 := by
  simp [populate, hp]

/-- Splitting a `_populate` run: when the first block of rows raises
nothing, processing the concatenation processes the first block and
continues with the second from the reached inventory, concatenating
the traces. -/
theorem populate_append_parts (env : CompEnv) (strict : Bool) (hf : String)
    (pre rest : List RawRow) :
    ∀ inv : Inventory, (populate env strict hf inv pre).2.2 = none →
      (populate env strict hf inv (pre ++ rest)).1 =
        (populate env strict hf (populate env strict hf inv pre).1 rest).1 ∧
      (populate env strict hf inv (pre ++ rest)).2.1 =
        (populate env strict hf inv pre).2.1 ++
          (populate env strict hf (populate env strict hf inv pre).1 rest).2.1 ∧
      (populate env strict hf inv (pre ++ rest)).2.2 =
        (populate env strict hf (populate env strict hf inv pre).1 rest).2.2 := by
  induction pre with
  | nil => intro inv h; simp [populate]
  | cons r pre ih =>
    intro inv h
    cases hp : (processRow env strict hf inv r).2.2 with
    | some e =>
      rw [populate_cons_err env strict hf inv r pre e hp] at h
      simp at h
    | none =>
      have hnone : (populate env strict hf (processRow env strict hf inv r).1 pre).2.2 = none := by
        rw [populate_cons_ok_err env strict hf inv r pre hp] at h
        exact h
      obtain ⟨ih1, ih2, ih3⟩ := ih (processRow env strict hf inv r).1 hnone
      rw [List.cons_append]
      refine ⟨?_, ?_, ?_⟩
      · rw [populate_cons_ok_fst env strict hf inv r (pre ++ rest) hp, ih1,
            populate_cons_ok_fst env strict hf inv r pre hp]
      · rw [populate_cons_ok_ops env strict hf inv r (pre ++ rest) hp, ih2,
            populate_cons_ok_ops env strict hf inv r pre hp,
            populate_cons_ok_fst env strict hf inv r pre hp]
        simp [List.append_assoc]
      · rw [populate_cons_ok_err env strict hf inv r (pre ++ rest) hp, ih3,
            populate_cons_ok_fst env strict hf inv r pre hp]

/-! ## Spec-side characterisations -/

/-- The hostname values of the rows `_populate` accepts: rows that are
mappings and whose hostname field holds a truthy value, in row
order. -/
def goodHostnames (hf : String) (rows : List RawRow) : List Value :=
  rows.filterMap fun r =>
    match r with
    | .dict row =>
      match rowGet row hf with
      | some v => if v.truthy then some v else none
      | none => none
    | .other _ => none

/-- Registering a list of hostnames one after the other, keeping the
first occurrence of each. -/
def addAll (hs : List Value) (names : List Value) : List Value :=
  names.foldl (fun l v => if v ∈ l then l else l ++ [v]) hs

/-- An error-free `_populate` run makes the `"all"` membership list
the fold of registrations of exactly the accepted hostnames. -/
theorem populate_hosts_ok (env : CompEnv) (strict : Bool) (hf : String)
    (rows : List RawRow) (inv : Inventory)
    (h : (populate env strict hf inv rows).2.2 = none) :
    (populate env strict hf inv rows).1.hosts = addAll inv.hosts (goodHostnames hf rows) := by
  induction rows generalizing inv with
  | nil => simp [populate, addAll, goodHostnames]
  | cons r rows ih =>
    cases hp : (processRow env strict hf inv r).2.2 with
    | some e =>
      rw [populate_cons_err env strict hf inv r rows e hp] at h
      simp at h
    | none =>
      have hnone : (populate env strict hf (processRow env strict hf inv r).1 rows).2.2 = none := by
        rw [populate_cons_ok_err env strict hf inv r rows hp] at h
        exact h
      rw [populate_cons_ok_fst env strict hf inv r rows hp, ih _ hnone]
      cases r with
      | other desc => simp [processRow] at hp
      | dict row =>
        cases hg : rowGet row hf with
        | none =>
          have h1 : (processRow env strict hf inv (.dict row)).1 = inv := by
            simp [processRow, hg]
          rw [h1]
          simp [goodHostnames, hg]
        | some v =>
          by_cases hv : v.truthy
          · have h1 : processRow env strict hf inv (.dict row) =
                addHostRun env strict inv v row := by
              simp [processRow, hg, hv]
            rw [h1, addHostRun_hosts, addHost_hosts]
            simp only [goodHostnames, List.filterMap_cons, hg, hv, if_true]
            simp only [addAll, List.foldl_cons]
          · have hv' : v.truthy = false := by simpa using hv
            have h1 : (processRow env strict hf inv (.dict row)).1 = inv := by
              simp [processRow, hg, hv']
            rw [h1]
            simp [goodHostnames, hg, hv']

/-- An error-free `_populate` run emits one skip warning per rejected
row: warnings plus accepted rows account for every row. -/
theorem populate_warn_count_ok (env : CompEnv) (strict : Bool) (hf : String)
    (rows : List RawRow) (inv : Inventory)
    (h : (populate env strict hf inv rows).2.2 = none) :
    (populate env strict hf inv rows).2.1.count .warnSkip +
      (goodHostnames hf rows).length = rows.length := by
  have hw1 : List.count Op.warnSkip [Op.warnSkip] = 1 := by decide
  induction rows generalizing inv with
  | nil => simp [populate, goodHostnames]
  | cons r rows ih =>
    cases hp : (processRow env strict hf inv r).2.2 with
    | some e =>
      rw [populate_cons_err env strict hf inv r rows e hp] at h
      simp at h
    | none =>
      have hnone : (populate env strict hf (processRow env strict hf inv r).1 rows).2.2 = none := by
        rw [populate_cons_ok_err env strict hf inv r rows hp] at h
        exact h
      have hrec := ih _ hnone
      rw [populate_cons_ok_ops env strict hf inv r rows hp, List.count_append]
      cases r with
      | other desc => simp [processRow] at hp
      | dict row =>
        cases hg : rowGet row hf with
        | none =>
          have h1 : (processRow env strict hf inv (.dict row)).2.1 = [Op.warnSkip] := by
            simp [processRow, hg]
          rw [h1, hw1]
          simp only [goodHostnames, List.filterMap_cons, hg, List.length_cons] at hrec ⊢
          omega
        | some v =>
          by_cases hv : v.truthy
          · have h1 : processRow env strict hf inv (.dict row) =
                addHostRun env strict inv v row := by
              simp [processRow, hg, hv]
            have h0 : (addHostRun env strict inv v row).2.1.count Op.warnSkip = 0 :=
              List.count_eq_zero.mpr (addHostRun_no_warn env strict inv v row)
            rw [h1] at hrec ⊢
            rw [h0]
            simp only [goodHostnames, List.filterMap_cons, hg, hv, if_true,
              List.length_cons] at hrec ⊢
            omega
          · have hv' : v.truthy = false := by simpa using hv
            have h1 : (processRow env strict hf inv (.dict row)).2.1 = [Op.warnSkip] := by
              simp [processRow, hg, hv']
            rw [h1, hw1]
            simp only [goodHostnames, List.filterMap_cons, hg, hv', Bool.false_eq_true,
              if_false, List.length_cons] at hrec ⊢
            omega

/-- `addAll` preserves distinctness of the membership list. -/
theorem addAll_nodup (names : List Value) (hs : List Value) (h : hs.Nodup) :
    (addAll hs names).Nodup := by
  induction names generalizing hs with
  | nil => exact h
  | cons v names ih =>
    simp only [addAll, List.foldl_cons]
    by_cases hv : v ∈ hs
    · rw [if_pos hv]
      exact ih hs h
    · rw [if_neg hv]
      refine ih _ ?_
      simp [List.nodup_append, h, hv]

/-- `addAll` registers exactly the given names, as a set. -/
theorem addAll_toFinset (names : List Value) (hs : List Value) :
    (addAll hs names).toFinset = hs.toFinset ∪ names.toFinset := by
  induction names generalizing hs with
  | nil => simp [addAll]
  | cons v names ih =>
    simp only [addAll, List.foldl_cons]
    by_cases hv : v ∈ hs
    · rw [if_pos hv]
      have := ih hs
      simp only [addAll] at this
      rw [this]
      ext x
      simp only [Finset.mem_union, List.mem_toFinset, List.toFinset_cons, Finset.mem_insert]
      constructor
      · rintro (hx | hx)
        · exact Or.inl hx
        · exact Or.inr (Or.inr hx)
      · rintro (hx | rfl | hx)
        · exact Or.inl hx
        · exact Or.inl hv
        · exact Or.inr hx
    · rw [if_neg hv]
      have := ih (hs ++ [v])
      simp only [addAll] at this
      rw [this]
      ext x
      simp only [Finset.mem_union, List.mem_toFinset, List.toFinset_cons, Finset.mem_insert,
        List.mem_append, List.mem_singleton]
      tauto

/-! ## Claim theorems -/

/-- C1: for every query option value that is not a string, is
empty/whitespace-only, or whose trimmed text does not begin with
`SELECT` case-insensitively, `_get_raw_hosts` raises one of the two
configuration-error messages and opens no database connection (the
event trace is just the call itself), whatever the database would
have done. -/
theorem getRawHosts_invalid_query_rejected (q : QueryOpt) (db : DBOutcome)
    (hq : invalidQuery q = true) :
    ∃ m, getRawHosts q db = (.error m, [.fetchCall]) ∧ isConfigErrorMsg m = true := by
  cases q with
  | notStr d => exact ⟨"Query must be a non-empty string", rfl, rfl⟩
  | str s =>
    simp only [invalidQuery, Bool.or_eq_true, Bool.not_eq_true'] at hq
    by_cases he : queryBlank s
    · exact ⟨"Query must be a non-empty string", by simp [getRawHosts, he], rfl⟩
    · have hs : queryIsSelect s = false := by
        rcases hq with h | h
        · exact absurd h he
        · exact h
      exact ⟨"Database query must be a valid SELECT statement",
        by simp [getRawHosts, he, hs], rfl⟩

/-- Witness for C1 at the spec's scenario-4 input `"DROP TABLE x"`. -/
theorem getRawHosts_invalid_query_rejected_witness :
    invalidQuery (.str "DROP TABLE x") = true ∧
    ∃ m, getRawHosts (.str "DROP TABLE x") (.rows []) = (.error m, [.fetchCall]) ∧
      isConfigErrorMsg m = true :=
  ⟨by decide, getRawHosts_invalid_query_rejected (.str "DROP TABLE x") (.rows []) (by decide)⟩

/-- C5: every `_get_raw_hosts` call opens at most one connection and
closes exactly as many connections as it opens, on every exit path
(validation failure, connect failure, execution failure, success). -/
theorem getRawHosts_connection_balanced (q : QueryOpt) (db : DBOutcome) :
    (getRawHosts q db).2.count .connect = (getRawHosts q db).2.count .close ∧
    (getRawHosts q db).2.count .connect ≤ 1 := by
  rcases getRawHosts_evs_cases q db with h | h <;> rw [h] <;> exact ⟨by decide, by decide⟩

/-- C8: registering a host into group `"all"` is idempotent — a second
registration of the same host is a no-op on the whole inventory, and a
host not previously registered ends up with exactly one membership. -/
theorem addHost_idempotent (inv : Inventory) (h : Value) :
    (inv.addHost h).addHost h = inv.addHost h ∧
    (h ∉ inv.hosts → ((inv.addHost h).addHost h).hosts.count h = 1) := by
  constructor
  · by_cases hh : h ∈ inv.hosts
    · simp [Inventory.addHost, hh]
    · have hm : h ∈ inv.hosts ++ [h] := by simp
      simp [Inventory.addHost, hh, hm]
  · intro hno
    have hm : h ∈ inv.hosts ++ [h] := by simp
    simp [Inventory.addHost, hno, hm, List.count_append, List.count_eq_zero.mpr hno]

/-- Witness for C8: a fresh host registered twice in an empty
inventory has exactly one membership in `"all"`. -/
theorem addHost_idempotent_witness :
    (Inventory.empty.addHost (.str "h1")).addHost (.str "h1") =
      Inventory.empty.addHost (.str "h1") ∧
    ((Inventory.empty.addHost (.str "h1")).addHost (.str "h1")).hosts.count (.str "h1") = 1 :=
  ⟨(addHost_idempotent Inventory.empty (.str "h1")).1,
   (addHost_idempotent Inventory.empty (.str "h1")).2 (by decide)⟩

/-- Two well-formed rows carrying the same hostname value. -/
def dupRows : List RawRow :=
  [.dict [("hostname", .str "h1")], .dict [("hostname", .str "h1")]]

/-- C2 counterexample: on two rows with the same non-empty hostname,
`_populate` finishes without error, both rows qualify (two rows with a
non-empty hostname-field value), yet the resulting host count is 1,
so the claimed equality of host count and qualifying-row count is
false. -/
theorem populate_count_counterexample :
    (populate CompEnv.ok false "hostname" Inventory.empty dupRows).2.2 = none ∧
    (goodHostnames "hostname" dupRows).length = 2 ∧
    (populate CompEnv.ok false "hostname" Inventory.empty dupRows).1.hosts.length = 1 ∧
    ¬ ((populate CompEnv.ok false "hostname" Inventory.empty dupRows).1.hosts.length =
        (goodHostnames "hostname" dupRows).length) :=
  ⟨by decide, by decide, by decide, by decide⟩

/-- C2 (amended): in an error-free `_populate` run into an empty
inventory, exactly the rows with a truthy hostname-field value become
hosts: the host set equals the set of those hostname values, the host
list is duplicate-free, the host count equals the number of distinct
such values, and each rejected row is skipped with one warning while
processing continues (warnings plus accepted rows account for every
row). -/
theorem populate_skips_rows_without_hostname (env : CompEnv) (strict : Bool)
    (hf : String) (rows : List RawRow)
    (h : (populate env strict hf Inventory.empty rows).2.2 = none) :
    (populate env strict hf Inventory.empty rows).1.hosts.toFinset =
      (goodHostnames hf rows).toFinset ∧
    (populate env strict hf Inventory.empty rows).1.hosts.Nodup ∧
    (populate env strict hf Inventory.empty rows).1.hosts.length =
      (goodHostnames hf rows).toFinset.card ∧
    (populate env strict hf Inventory.empty rows).2.1.count .warnSkip +
      (goodHostnames hf rows).length = rows.length := by
  have hh := populate_hosts_ok env strict hf rows Inventory.empty h
  have hemp : (Inventory.empty).hosts = ([] : List Value) := rfl
  have hnd : (populate env strict hf Inventory.empty rows).1.hosts.Nodup := by
    rw [hh]
    exact addAll_nodup _ _ (by rw [hemp]; exact List.nodup_nil)
  refine ⟨?_, hnd, ?_, populate_warn_count_ok env strict hf rows Inventory.empty h⟩
  · rw [hh, addAll_toFinset, hemp]
    simp
  · rw [← List.toFinset_card_of_nodup hnd, hh, addAll_toFinset, hemp]
    simp

/-- The spec's end-to-end scenario-1 rows: one row with hostname
`"h1"`, one row with an empty hostname. -/
def scenarioRows : List RawRow :=
  [.dict [("hostname", .str "h1"), ("env", .str "PROD")],
   .dict [("hostname", .str ""), ("env", .str "DEV")]]

/-- Witness for C2 (amended) on the scenario-1 rows. -/
theorem populate_skips_rows_without_hostname_witness :
    (populate CompEnv.ok false "hostname" Inventory.empty scenarioRows).2.2 = none ∧
    ((populate CompEnv.ok false "hostname" Inventory.empty scenarioRows).1.hosts.toFinset =
        (goodHostnames "hostname" scenarioRows).toFinset ∧
      (populate CompEnv.ok false "hostname" Inventory.empty scenarioRows).1.hosts.Nodup ∧
      (populate CompEnv.ok false "hostname" Inventory.empty scenarioRows).1.hosts.length =
        (goodHostnames "hostname" scenarioRows).toFinset.card ∧
      (populate CompEnv.ok false "hostname" Inventory.empty scenarioRows).2.1.count .warnSkip +
        (goodHostnames "hostname" scenarioRows).length = scenarioRows.length) :=
  ⟨by decide,
   populate_skips_rows_without_hostname CompEnv.ok false "hostname" scenarioRows (by decide)⟩

/-- C4: any exception raised while processing one row is caught,
wrapped as `"Failure parsing record: "` plus the cause, and re-raised,
aborting all remaining rows — the final state is exactly the prefix
effects plus the failing row's partial effects and the trace stops at
the failing row; by contrast a row whose hostname field is merely
missing raises nothing. -/
theorem populate_wraps_row_error (env : CompEnv) (strict : Bool) (hf : String)
    (pre rest : List RawRow) (r : RawRow) (inv : Inventory) (cause : String)
    (hpre : (populate env strict hf inv pre).2.2 = none)
    (herr : (processRow env strict hf (populate env strict hf inv pre).1 r).2.2 =
      some cause) :
    (populate env strict hf inv (pre ++ r :: rest)).2.2 =
      some ("Failure parsing record: " ++ cause) ∧
    (populate env strict hf inv (pre ++ r :: rest)).1 =
      (processRow env strict hf (populate env strict hf inv pre).1 r).1 ∧
    (populate env strict hf inv (pre ++ r :: rest)).2.1 =
      (populate env strict hf inv pre).2.1 ++
        (processRow env strict hf (populate env strict hf inv pre).1 r).2.1 ∧
    (∀ row : Row, rowGet row hf = none →
      (processRow env strict hf inv (.dict row)).2.2 = none) := by
  obtain ⟨h1, h2, h3⟩ := populate_append_parts env strict hf pre (r :: rest) inv hpre
  have hc := populate_cons_err env strict hf (populate env strict hf inv pre).1 r rest
    cause herr
  refine ⟨?_, ?_, ?_, ?_⟩
  · rw [h3, hc]
  · rw [h1, hc]
  · rw [h2, hc]
  · intro row hrow
    simp [processRow, hrow]

/-- A raw row that is not a mapping; `row.get` raises on it. -/
def badRow : RawRow := .other "AttributeError"

/-- Witness for C4: a non-mapping row after one good row aborts the
run with the wrapped message. -/
theorem populate_wraps_row_error_witness :
    (populate CompEnv.ok false "hostname" Inventory.empty
        [RawRow.dict [("hostname", .str "h1")]]).2.2 = none ∧
    (processRow CompEnv.ok false "hostname"
        (populate CompEnv.ok false "hostname" Inventory.empty
          [RawRow.dict [("hostname", .str "h1")]]).1 badRow).2.2 =
      some "AttributeError" ∧
    (populate CompEnv.ok false "hostname" Inventory.empty
        ([RawRow.dict [("hostname", .str "h1")]] ++ badRow :: scenarioRows)).2.2 =
      some ("Failure parsing record: " ++ "AttributeError") :=
  ⟨by decide, by decide,
   (populate_wraps_row_error CompEnv.ok false "hostname"
      [RawRow.dict [("hostname", .str "h1")]] scenarioRows badRow Inventory.empty
      "AttributeError" (by decide) (by decide)).1⟩

/-- Whatever `_populate` does to one row only extends the
accumulator: hosts may be appended, assignments may be prepended,
nothing already recorded is removed. -/
theorem processRow_extends (env : CompEnv) (strict : Bool) (hf : String)
    (inv : Inventory) (r : RawRow) :
    (∃ nh, (processRow env strict hf inv r).1.hosts = inv.hosts ++ nh) ∧
    (∃ nv, (processRow env strict hf inv r).1.hostVars = nv ++ inv.hostVars) := by
  cases r with
  | other desc => exact ⟨⟨[], by simp [processRow]⟩, ⟨[], by simp [processRow]⟩⟩
  | dict row =>
    cases hg : rowGet row hf with
    | none => exact ⟨⟨[], by simp [processRow, hg]⟩, ⟨[], by simp [processRow, hg]⟩⟩
    | some v =>
      by_cases hv : v.truthy
      · constructor
        · by_cases hm : v ∈ inv.hosts
          · exact ⟨[], by simp [processRow, hg, hv, addHostRun_hosts, addHost_hosts, hm]⟩
          · exact ⟨[v], by simp [processRow, hg, hv, addHostRun_hosts, addHost_hosts, hm]⟩
        · exact ⟨(row.map (fun p => (v, p.1, p.2))).reverse,
            by simp [processRow, hg, hv, addHostRun_hostVars]⟩
      · have hv' : v.truthy = false := by simpa using hv
        exact ⟨⟨[], by simp [processRow, hg, hv']⟩, ⟨[], by simp [processRow, hg, hv']⟩⟩

/-- C9: population is not atomic — when a row aborts the run with an
error, every host registered and every assignment recorded by the
earlier rows is still in the accumulator (the earlier membership list
is an initial segment of the final one, the earlier variable store a
final segment), and the run indeed ends in an error. -/
theorem populate_no_rollback (env : CompEnv) (strict : Bool) (hf : String)
    (pre rest : List RawRow) (r : RawRow) (inv : Inventory) (cause : String)
    (hpre : (populate env strict hf inv pre).2.2 = none)
    (herr : (processRow env strict hf (populate env strict hf inv pre).1 r).2.2 =
      some cause) :
    (∃ nh, (populate env strict hf inv (pre ++ r :: rest)).1.hosts =
        (populate env strict hf inv pre).1.hosts ++ nh) ∧
    (∃ nv, (populate env strict hf inv (pre ++ r :: rest)).1.hostVars =
        nv ++ (populate env strict hf inv pre).1.hostVars) ∧
    (populate env strict hf inv (pre ++ r :: rest)).2.2 ≠ none := by
  obtain ⟨h1, h2, h3⟩ := populate_append_parts env strict hf pre (r :: rest) inv hpre
  have hc := populate_cons_err env strict hf (populate env strict hf inv pre).1 r rest
    cause herr
  obtain ⟨⟨nh, hnh⟩, ⟨nv, hnv⟩⟩ :=
    processRow_extends env strict hf (populate env strict hf inv pre).1 r
  refine ⟨⟨nh, ?_⟩, ⟨nv, ?_⟩, ?_⟩
  · rw [h1, hc]
    exact hnh
  · rw [h1, hc]
    exact hnv
  · rw [h3, hc]
    simp

/-- The per-row event sequence the spec prescribes: register into
`"all"`, one assignment per field in row order, then the compose,
composed-groups and keyed-groups calls; a row without a truthy
hostname contributes only the skip warning. -/
def claimRowTrace (hf : String) : RawRow → List Op
  | .other _ => []
  | .dict row =>
    match rowGet row hf with
    | some v =>
      if v.truthy then
        Op.addHost v :: (row.map (fun p => Op.setVar v p.1 p.2) ++
          [.composeCall v, .groupsCall v, .keyedCall v])
      else [.warnSkip]
    | none => [.warnSkip]

/-- The value of the LAST occurrence of field `k` in a row. -/
def rowLast (row : Row) (k : String) : Option Value :=
  (row.reverse.find? (fun p => p.1 == k)).map (·.2)

/-- The trace of one row that raises nothing is the prescribed
sequence. -/
theorem processRow_ops_ok (env : CompEnv) (strict : Bool) (hf : String)
    (inv : Inventory) (r : RawRow)
    (hp : (processRow env strict hf inv r).2.2 = none) :
    (processRow env strict hf inv r).2.1 = claimRowTrace hf r := by
  cases r with
  | other desc => simp [processRow] at hp
  | dict row =>
    cases hg : rowGet row hf with
    | none => simp [processRow, claimRowTrace, hg]
    | some v =>
      by_cases hv : v.truthy
      · have h1 : processRow env strict hf inv (.dict row) =
            addHostRun env strict inv v row := by
          simp [processRow, hg, hv]
        rw [h1] at hp ⊢
        rw [addHostRun_ops_ok env strict inv v row hp]
        simp [claimRowTrace, hg, hv]
      · have hv' : v.truthy = false := by simpa using hv
        simp [processRow, claimRowTrace, hg, hv']

/-- In an error-free `_populate` run the whole trace is the
concatenation of the per-row sequences, in row order. -/
theorem populate_ops_ok (env : CompEnv) (strict : Bool) (hf : String)
    (rows : List RawRow) :
    ∀ inv : Inventory, (populate env strict hf inv rows).2.2 = none →
      (populate env strict hf inv rows).2.1 = (rows.map (claimRowTrace hf)).flatten := by
  induction rows with
  | nil => intro inv _; simp [populate]
  | cons r rows ih =>
    intro inv h
    cases hp : (processRow env strict hf inv r).2.2 with
    | some e =>
      rw [populate_cons_err env strict hf inv r rows e hp] at h
      simp at h
    | none =>
      have hnone : (populate env strict hf (processRow env strict hf inv r).1 rows).2.2 =
          none := by
        rw [populate_cons_ok_err env strict hf inv r rows hp] at h
        exact h
      rw [populate_cons_ok_ops env strict hf inv r rows hp, ih _ hnone,
          processRow_ops_ok env strict hf inv r hp]
      simp

/-- `find?` on a cons whose head satisfies the predicate, with the
predicate and head explicit. -/
theorem find?_cons_pos {α : Type} (q : α → Bool) (a : α) (l : List α)
    (h : q a = true) : (a :: l).find? q = some a :=
  List.find?_cons_of_pos l h

/-- `find?` on a cons whose head fails the predicate, with the
predicate and head explicit. -/
theorem find?_cons_neg {α : Type} (q : α → Bool) (a : α) (l : List α)
    (h : q a = false) : (a :: l).find? q = l.find? q :=
  List.find?_cons_of_neg l (by simp [h])

/-- Looking up a variable through the assignments produced by one row
(prepended latest-first onto any older store) yields the value of the
last occurrence of the field in the row. -/
theorem find?_setvars_last (hname : Value) (k : String) (l : List (String × Value)) :
    ∀ (rest : List (Value × String × Value)) (v : Value),
      (l.find? (fun p => p.1 == k)).map (·.2) = some v →
      ((l.map (fun p => (hname, p.1, p.2)) ++ rest).find?
        (fun t => t.1 == hname && t.2.1 == k)).map (·.2.2) = some v := by
  induction l with
  | nil => intro rest v hv; simp at hv
  | cons p l ih =>
    intro rest v hv
    by_cases hpk : (p.1 == k) = true
    · rw [find?_cons_pos (fun q => q.1 == k) p l hpk] at hv
      simp only [Option.map_some'] at hv
      rw [List.map_cons, List.cons_append,
        find?_cons_pos (fun t => t.1 == hname && t.2.1 == k) (hname, p.1, p.2)
          (l.map (fun p => (hname, p.1, p.2)) ++ rest) (by simp [hpk])]
      simpa using hv
    · have hpk' : (p.1 == k) = false := by simpa using hpk
      rw [find?_cons_neg (fun q => q.1 == k) p l hpk'] at hv
      rw [List.map_cons, List.cons_append,
        find?_cons_neg (fun t => t.1 == hname && t.2.1 == k) (hname, p.1, p.2)
          (l.map (fun p => (hname, p.1, p.2)) ++ rest) (by simp [hpk'])]
      exact ih rest v hv

/-- After `_add_host`, each variable of the host holds the value of
the last occurrence of that field in the row: the row's assignments
overwrite whatever was stored before. -/
theorem getVariable_addHostRun (env : CompEnv) (strict : Bool) (inv : Inventory)
    (hname : Value) (row : Row) (k : String) (v : Value)
    (hk : rowLast row k = some v) :
    ((addHostRun env strict inv hname row).1).getVariable hname k = some v := by
  unfold rowLast at hk
  unfold Inventory.getVariable
  rw [addHostRun_hostVars, ← List.map_reverse]
  exact find?_setvars_last hname k row.reverse inv.hostVars v hk

/-- C7: in an error-free `_populate` run the rows are processed in
sequence order with, per accepted row, exactly: registration into
`"all"`, one verbatim assignment per field in row order, then the
compose, composed-groups and keyed-groups calls — the full trace is
the concatenation of the per-row sequences — and each assignment
overwrites: after `_add_host` a field's variable holds the last value
the row gives it. -/
theorem populate_row_order_and_overwrite (env : CompEnv) (strict : Bool)
    (hf : String) (inv : Inventory) (rows : List RawRow)
    (h : (populate env strict hf inv rows).2.2 = none) :
    (populate env strict hf inv rows).2.1 = (rows.map (claimRowTrace hf)).flatten ∧
    (∀ (inv2 : Inventory) (hname : Value) (row : Row) (k : String) (v : Value),
      rowLast row k = some v →
      ((addHostRun env strict inv2 hname row).1).getVariable hname k = some v) :=
  ⟨populate_ops_ok env strict hf rows inv h,
   fun inv2 hname row k v hk => getVariable_addHostRun env strict inv2 hname row k v hk⟩

/-- Witness for C7 on the scenario-1 rows, with the overwrite part
instanced on a row that assigns the same field twice. -/
theorem populate_row_order_and_overwrite_witness :
    (populate CompEnv.ok false "hostname" Inventory.empty scenarioRows).2.2 = none ∧
    (populate CompEnv.ok false "hostname" Inventory.empty scenarioRows).2.1 =
      (scenarioRows.map (claimRowTrace "hostname")).flatten ∧
    rowLast [("env", Value.str "PROD"), ("env", Value.str "QA")] "env" =
      some (Value.str "QA") ∧
    ((addHostRun CompEnv.ok false Inventory.empty (.str "h1")
        [("env", Value.str "PROD"), ("env", Value.str "QA")]).1).getVariable
      (.str "h1") "env" = some (Value.str "QA") :=
  ⟨by decide,
   (populate_row_order_and_overwrite CompEnv.ok false "hostname" Inventory.empty
      scenarioRows (by decide)).1,
   by decide,
   (populate_row_order_and_overwrite CompEnv.ok false "hostname" Inventory.empty
      scenarioRows (by decide)).2 Inventory.empty (.str "h1")
      [("env", Value.str "PROD"), ("env", Value.str "QA")] "env" (Value.str "QA")
      (by decide)⟩

/-- Witness for C9: after one good row, a malformed row aborts the
run but the host from the first row is still registered. -/
theorem populate_no_rollback_witness :
    (populate CompEnv.ok false "hostname" Inventory.empty
        [RawRow.dict [("hostname", .str "h1")]]).2.2 = none ∧
    (∃ nh, (populate CompEnv.ok false "hostname" Inventory.empty
        ([RawRow.dict [("hostname", .str "h1")]] ++ badRow :: [])).1.hosts =
      (populate CompEnv.ok false "hostname" Inventory.empty
        [RawRow.dict [("hostname", .str "h1")]]).1.hosts ++ nh) :=
  ⟨by decide,
   (populate_no_rollback CompEnv.ok false "hostname"
      [RawRow.dict [("hostname", .str "h1")]] [] badRow Inventory.empty
      "AttributeError" (by decide) (by decide)).1⟩

/-- The fetch layer emits only call/connect/execute/close events,
never cache events. -/
theorem fetch_evs_no_cache_events (q : QueryOpt) (db : DBOutcome) (key : String) :
    FetchEv.cacheLookup key ∉ (getRawHosts q db).2 ∧
    FetchEv.cacheWrite key ∉ (getRawHosts q db).2 := by
  rcases getRawHosts_evs_cases q db with h | h <;> rw [h] <;> exact ⟨by simp, by simp⟩

/-- Dict semantics of the cache store: a write is immediately
readable under its key. -/
theorem cacheGet_cacheSet_self (c : Cache) (k : String) (rows : List RawRow) :
    cacheGet (cacheSet c k rows) k = some rows := by
  simp [cacheGet, cacheSet]

/-- C6: the orchestrator's `utilize_cache` decision is the boolean
conjunction of the configuration's `cache` option and the caller's
`cache` flag: the cache is consulted iff both are true, and written
iff both are true, the lookup missed and the fetch succeeded — so
caller-level cache suppression always wins. -/
theorem parse_cache_gating (env : CompEnv) (strict : Bool) (hf : String) (q : QueryOpt)
    (u c : Bool) (key : String) (cache : Cache) (db : DBOutcome) (inv : Inventory) :
    utilizeCache u c = (u && c) ∧
    (FetchEv.cacheLookup key ∈ (parse env strict hf q u c key cache db inv).fetchEvs ↔
      (u && c) = true) ∧
    (FetchEv.cacheWrite key ∈ (parse env strict hf q u c key cache db inv).fetchEvs ↔
      ((u && c) = true ∧ cacheGet cache key = none ∧
        ∃ rs, (getRawHosts q db).1 = Except.ok rs)) := by
  obtain ⟨hnl, hnw⟩ := fetch_evs_no_cache_events q db key
  refine ⟨rfl, ?_, ?_⟩
  · by_cases huc : utilizeCache u c = true
    · have hb : (u && c) = true := huc
      cases hhit : cacheGet cache key with
      | some rows =>
        simp only [parse, huc, hhit, if_true]
        simp [hb]
      | none =>
        rcases hres : getRawHosts q db with ⟨res, evs⟩
        have hl : FetchEv.cacheLookup key ∉ evs := by rw [hres] at hnl; exact hnl
        cases res with
        | error e =>
          simp only [parse, huc, hhit, if_true]
          rw [hres]
          simp [hl, hb]
        | ok rows =>
          simp only [parse, huc, hhit, if_true]
          rw [hres]
          simp [hl, hb]
    · have huc' : utilizeCache u c = false := by simpa using huc
      have hb : (u && c) = false := huc'
      rcases hres : getRawHosts q db with ⟨res, evs⟩
      have hl : FetchEv.cacheLookup key ∉ evs := by rw [hres] at hnl; exact hnl
      cases res with
      | error e =>
        simp only [parse, huc', Bool.false_eq_true, if_false]
        rw [hres]
        simp [hl, hb]
      | ok rows =>
        simp only [parse, huc', Bool.false_eq_true, if_false]
        rw [hres]
        simp [hl, hb]
  · by_cases huc : utilizeCache u c = true
    · have hb : (u && c) = true := huc
      cases hhit : cacheGet cache key with
      | some rows =>
        simp only [parse, huc, hhit, if_true]
        simp [hhit]
      | none =>
        rcases hres : getRawHosts q db with ⟨res, evs⟩
        have hw : FetchEv.cacheWrite key ∉ evs := by rw [hres] at hnw; exact hnw
        cases res with
        | error e =>
          simp only [parse, huc, hhit, if_true]
          rw [hres]
          simp [hw, hres]
        | ok rows =>
          simp only [parse, huc, hhit, if_true]
          rw [hres]
          simp [hw, hres, hhit, hb]
    · have huc' : utilizeCache u c = false := by simpa using huc
      have hb : (u && c) = false := huc'
      rcases hres : getRawHosts q db with ⟨res, evs⟩
      have hw : FetchEv.cacheWrite key ∉ evs := by rw [hres] at hnw; exact hnw
      cases res with
      | error e =>
        simp only [parse, huc', Bool.false_eq_true, if_false]
        rw [hres]
        simp [hw, hb]
      | ok rows =>
        simp only [parse, huc', Bool.false_eq_true, if_false]
        rw [hres]
        simp [hw, hb]

/-- C3: load orchestration. On a cache hit with caching utilized, the
cached rows are populated and the database layer is never entered (no
fetch events at all). On a miss or with caching off, `_get_raw_hosts`
is always called. On a fresh successful fetch with caching utilized,
the fetched rows are written through to the cache under the key — the
write event sits between the fetch events and population — and
population runs on exactly the fetched rows. -/
theorem parse_cache_orchestration (env : CompEnv) (strict : Bool) (hf : String)
    (q : QueryOpt) (u c : Bool) (key : String) (cache : Cache) (db : DBOutcome)
    (inv : Inventory) :
    (∀ rows : List RawRow, utilizeCache u c = true → cacheGet cache key = some rows →
      parse env strict hf q u c key cache db inv =
        ⟨cache, (populate env strict hf inv rows).1, [.cacheLookup key],
         (populate env strict hf inv rows).2.1, (populate env strict hf inv rows).2.2⟩) ∧
    ((utilizeCache u c = false ∨ cacheGet cache key = none) →
      FetchEv.fetchCall ∈ (parse env strict hf q u c key cache db inv).fetchEvs) ∧
    (∀ rows : List RawRow, utilizeCache u c = true → cacheGet cache key = none →
      (getRawHosts q db).1 = Except.ok rows →
      cacheGet (parse env strict hf q u c key cache db inv).cache key = some rows ∧
      (parse env strict hf q u c key cache db inv).fetchEvs =
        FetchEv.cacheLookup key :: ((getRawHosts q db).2 ++ [FetchEv.cacheWrite key]) ∧
      (parse env strict hf q u c key cache db inv).ops =
        (populate env strict hf inv rows).2.1 ∧
      (parse env strict hf q u c key cache db inv).err =
        (populate env strict hf inv rows).2.2) := by
  refine ⟨?_, ?_, ?_⟩
  · intro rows hu hhit
    simp [parse, hu, hhit]
  · intro hcase
    have hstart : FetchEv.fetchCall ∈ (getRawHosts q db).2 := by
      rcases getRawHosts_evs_cases q db with h | h <;> rw [h] <;> simp
    rcases hres : getRawHosts q db with ⟨res, evs⟩
    have hev : FetchEv.fetchCall ∈ evs := by rw [hres] at hstart; exact hstart
    rcases hcase with huc | hmiss
    · have huc' : utilizeCache u c = false := huc
      cases res with
      | error e =>
        simp only [parse, huc', Bool.false_eq_true, if_false]
        rw [hres]
        simp [hev]
      | ok rows =>
        simp only [parse, huc', Bool.false_eq_true, if_false]
        rw [hres]
        simp [hev]
    · by_cases huc : utilizeCache u c = true
      · cases res with
        | error e =>
          simp only [parse, huc, hmiss, if_true]
          rw [hres]
          simp [hev]
        | ok rows =>
          simp only [parse, huc, hmiss, if_true]
          rw [hres]
          simp [hev]
      · have huc' : utilizeCache u c = false := by simpa using huc
        cases res with
        | error e =>
          simp only [parse, huc', Bool.false_eq_true, if_false]
          rw [hres]
          simp [hev]
        | ok rows =>
          simp only [parse, huc', Bool.false_eq_true, if_false]
          rw [hres]
          simp [hev]
  · intro rows hu hmiss hok
    rcases hres : getRawHosts q db with ⟨res, evs⟩
    have hres1 : res = Except.ok rows := by rw [hres] at hok; exact hok
    subst hres1
    have hp : parse env strict hf q u c key cache db inv =
        ⟨cacheSet cache key rows, (populate env strict hf inv rows).1,
         FetchEv.cacheLookup key :: (evs ++ [FetchEv.cacheWrite key]),
         (populate env strict hf inv rows).2.1,
         (populate env strict hf inv rows).2.2⟩ := by
      simp [parse, hu, hmiss, hres]
    rw [hp]
    refine ⟨cacheGet_cacheSet_self cache key rows, ?_, rfl, rfl⟩
    rfl

/-- Witness for C3: a populated demo cache. -/
def demoCache : Cache := [("k", scenarioRows)]

/-- Witness for C3: with caching on, a hit under `"k"` populates from
the cached rows with no fetch events; starting instead from an empty
cache, the fetched rows end up readable in the cache under `"k"`. -/
theorem parse_cache_orchestration_witness :
    utilizeCache true true = true ∧
    cacheGet demoCache "k" = some scenarioRows ∧
    parse CompEnv.ok false "hostname" (.str "SELECT * FROM t") true true "k" demoCache
        (.rows scenarioRows) Inventory.empty =
      ⟨demoCache,
       (populate CompEnv.ok false "hostname" Inventory.empty scenarioRows).1,
       [.cacheLookup "k"],
       (populate CompEnv.ok false "hostname" Inventory.empty scenarioRows).2.1,
       (populate CompEnv.ok false "hostname" Inventory.empty scenarioRows).2.2⟩ ∧
    cacheGet (parse CompEnv.ok false "hostname" (.str "SELECT * FROM t") true true "k" []
        (.rows scenarioRows) Inventory.empty).cache "k" = some scenarioRows :=
  ⟨rfl, by decide,
   (parse_cache_orchestration CompEnv.ok false "hostname" (.str "SELECT * FROM t")
      true true "k" demoCache (.rows scenarioRows) Inventory.empty).1 scenarioRows
      rfl (by decide),
   ((parse_cache_orchestration CompEnv.ok false "hostname" (.str "SELECT * FROM t")
      true true "k" [] (.rows scenarioRows) Inventory.empty).2.2 scenarioRows
      rfl (by decide) (by rfl)).1⟩

/-- C10: the SELECT validation lives only on the live-fetch path —
with a non-SELECT query, caching utilized and a cache hit, `parse`
populates from the cached rows, `_get_raw_hosts` is never called (no
fetch-call and no connect event), and the load completes without
error whenever population does. -/
theorem parse_cache_hit_skips_validation (env : CompEnv) (strict : Bool) (hf : String)
    (q : QueryOpt) (u c : Bool) (key : String) (cache : Cache) (db : DBOutcome)
    (inv : Inventory) (rows : List RawRow)
    (hbad : invalidQuery q = true)
    (hu : utilizeCache u c = true)
    (hhit : cacheGet cache key = some rows) :
    parse env strict hf q u c key cache db inv =
      ⟨cache, (populate env strict hf inv rows).1, [.cacheLookup key],
       (populate env strict hf inv rows).2.1, (populate env strict hf inv rows).2.2⟩ ∧
    FetchEv.fetchCall ∉ (parse env strict hf q u c key cache db inv).fetchEvs ∧
    FetchEv.connect ∉ (parse env strict hf q u c key cache db inv).fetchEvs ∧
    ((populate env strict hf inv rows).2.2 = none →
      (parse env strict hf q u c key cache db inv).err = none) := by
  refine ⟨by simp [parse, hu, hhit], ?_, ?_, ?_⟩
  · simp [parse, hu, hhit]
  · simp [parse, hu, hhit]
  · intro hok
    simp [parse, hu, hhit, hok]

/-- Witness for C10: `"DROP TABLE x"` with a cache hit loads the
cached scenario rows and raises nothing. -/
theorem parse_cache_hit_skips_validation_witness :
    invalidQuery (.str "DROP TABLE x") = true ∧
    (parse CompEnv.ok false "hostname" (.str "DROP TABLE x") true true "k" demoCache
        (.rows []) Inventory.empty =
      ⟨demoCache,
       (populate CompEnv.ok false "hostname" Inventory.empty scenarioRows).1,
       [.cacheLookup "k"],
       (populate CompEnv.ok false "hostname" Inventory.empty scenarioRows).2.1,
       (populate CompEnv.ok false "hostname" Inventory.empty scenarioRows).2.2⟩ ∧
    FetchEv.fetchCall ∉ (parse CompEnv.ok false "hostname" (.str "DROP TABLE x") true true
        "k" demoCache (.rows []) Inventory.empty).fetchEvs ∧
    FetchEv.connect ∉ (parse CompEnv.ok false "hostname" (.str "DROP TABLE x") true true
        "k" demoCache (.rows []) Inventory.empty).fetchEvs ∧
    ((populate CompEnv.ok false "hostname" Inventory.empty scenarioRows).2.2 = none →
      (parse CompEnv.ok false "hostname" (.str "DROP TABLE x") true true "k" demoCache
        (.rows []) Inventory.empty).err = none)) :=
  ⟨by decide,
   parse_cache_hit_skips_validation CompEnv.ok false "hostname" (.str "DROP TABLE x")
     true true "k" demoCache (.rows []) Inventory.empty scenarioRows
     (by decide) rfl (by decide)⟩

end MysqlInventory
